import Mathlib

/-!
Verification of the key-derivation and cache-orchestration logic of the
`generic_cache` library (a Python memoization layer).

The development shallowly embeds the relevant source files:

* `generic_cache/key_builder.py` — `BaseCacheKey`, `ArgsCacheKey`,
  `_get_func_kwargs`, `FunctionKeyBuilder`, `MethodKeyBuilder`,
  `AttrsMethodKeyBuilder`;
* `generic_cache/cache.py` — `_get_method_kwargs`, `GenericCache`,
  `GenericCacheMultiple`, `generic_cached_method`;
* `generic_cache/backend.py` — `InMemoryCache`;
* `generic_cache/decorator.py` — `CacheDecorator`.

Python values that flow into keys are modelled by the inductive `PyVal`;
Python `None` at the orchestration layer is modelled by `Option` so that the
"absent" sentinel of the backend is `none`.  Python dictionaries (which have
unique keys and preserve insertion order) are modelled by association lists
`List (String × PyVal)` together with the dict primitives `odLookup`,
`odInsert`, `odUpdate`, `odPop`.  Exceptions are modelled with `Except`.
-/

/-- Model of the Python values this library passes around in call arguments:
integers, strings, booleans, `None`, and attribute-carrying objects
(receivers).  Only these shapes appear in the repository's keys and tests. -/
inductive PyVal : Type where
  | vint (n : Int)
  | vstr (s : String)
  | vbool (b : Bool)
  | vnone
  | vobj (attrs : List (String × PyVal))
deriving Repr

/-- Rendering of an integer exactly as Python `str` does: decimal digits,
with a leading minus sign for negative numbers. -/
def intStr (n : Int) : String :=
  if n < 0 then "-" ++ Nat.repr n.natAbs else Nat.repr n.natAbs

/-- Model of Python `str(v)` for the values of `PyVal`.  `str` of an object
with default `__repr__` is address-dependent in Python; it is modelled by the
fixed placeholder `"<object>"` and is never relied on by any theorem (the
receiver is dropped from every normalized mapping before key rendering). -/
def pyStr : PyVal → String
  | .vint n => intStr n
  | .vstr s => s
  | .vbool b => if b then "True" else "False"
  | .vnone => "None"
  | .vobj _ => "<object>"

/-- Truthiness of a `PyVal`, as Python `bool(v)` (objects are truthy). -/
def pyTruthy : PyVal → Bool
  | .vint n => n ≠ 0
  | .vstr s => s ≠ ""
  | .vbool b => b
  | .vnone => false
  | .vobj _ => true

/-- Dictionary lookup on an association list: the value at the first
occurrence of the key, as Python `d[k]` / `d.get(k)`. -/
def odLookup : List (String × PyVal) → String → Option PyVal
  | [], _ => none
  | p :: rest, n => if p.1 = n then some p.2 else odLookup rest n

/-- Dictionary assignment `d[k] = v` on an association list: replace the
value in place when the key is present, append otherwise (Python dicts keep
insertion order and update values in place). -/
def odInsert (m : List (String × PyVal)) (k : String) (v : PyVal) :
    List (String × PyVal) :=
  if m.any (fun p => p.1 = k) then
    m.map (fun p => if p.1 = k then (p.1, v) else p)
  else m ++ [(k, v)]

/-- Dictionary `d.update(other)`: assign every pair of `other` in order. -/
def odUpdate (m other : List (String × PyVal)) : List (String × PyVal) :=
  other.foldl (fun acc p => odInsert acc p.1 p.2) m

/-- Dictionary `d.pop(k, default)` restricted to its effect on the removed
entries: all occurrences of the key are removed (an association list built by
`odInsert` holds at most one). -/
def odRemove (m : List (String × PyVal)) (k : String) :
    List (String × PyVal) :=
  m.filter (fun p => p.1 ≠ k)

/-- Attribute read `getattr(obj, name)` on a `PyVal`, `none` when the value
is not an object or lacks the attribute. -/
def pyGetattr (v : PyVal) (name : String) : Option PyVal :=
  match v with
  | .vobj attrs => odLookup attrs name
  | _ => none

/-! ## `ArgsCacheKey` (`key_builder.py` lines 70–117, `cache.py` lines 70–117) -/

/-- Embedding of `ArgsCacheKey` after `__init__` has run: `timeout` and
`key_version` have been popped from the keyword arguments, `args` and
`kwargs` hold the remaining call data. -/
structure ArgsCacheKey : Type where
  key_type : String
  version : PyVal
  timeout : Option PyVal
  args : List PyVal
  kwargs : List (String × PyVal)
deriving Repr

/-- Embedding of `ArgsCacheKey.__init__(key_type, *args, **kwargs)`: pops the
reserved names `timeout` (default `None`) and `key_version` (default `""`)
out of the keyword arguments; the rest become the key's `kwargs`. -/
def ArgsCacheKey.make (key_type : String) (args : List PyVal)
    (kwargs : List (String × PyVal)) : ArgsCacheKey :=
  { key_type := key_type
    version := (odLookup kwargs "key_version").getD (.vstr "")
    timeout := odLookup kwargs "timeout"
    args := args
    kwargs := odRemove (odRemove kwargs "timeout") "key_version" }

/-- Lexicographic comparison of character lists by code point, as Python
compares strings. -/
def charListLe : List Char → List Char → Bool
  | [], _ => true
  | _ :: _, [] => false
  | a :: as, b :: bs =>
    if a.toNat < b.toNat then true
    else if b.toNat < a.toNat then false
    else charListLe as bs

/-- Python string `a <= b`: lexicographic by code point. -/
def pyStrLe (a b : String) : Bool := charListLe a.data b.data

theorem char_eq_of_toNat_eq {a b : Char} (h : a.toNat = b.toNat) : a = b := by
  apply Char.eq_of_val_eq
  apply UInt32.eq_of_val_eq
  exact Fin.ext h

theorem charListLe_total : ∀ as bs, charListLe as bs = true ∨ charListLe bs as = true := by
  intro as
  induction as with
  | nil => intro bs; left; rfl
  | cons a as ih =>
    intro bs
    cases bs with
    | nil => right; rfl
    | cons b bs =>
      by_cases hab : a.toNat < b.toNat
      · left; simp [charListLe, hab]
      · by_cases hba : b.toNat < a.toNat
        · right; simp [charListLe, hba]
        · rcases ih bs with h | h
          · left; simp [charListLe, hab, hba, h]
          · right; simp [charListLe, hab, hba, h]

theorem charListLe_trans : ∀ as bs cs, charListLe as bs = true → charListLe bs cs = true →
    charListLe as cs = true := by
  intro as
  induction as with
  | nil => intro bs cs _ _; rfl
  | cons a as ih =>
    intro bs cs h1 h2
    cases bs with
    | nil => simp [charListLe] at h1
    | cons b bs =>
      cases cs with
      | nil => simp [charListLe] at h2
      | cons c cs =>
        simp only [charListLe] at h1 h2 ⊢
        by_cases hab : a.toNat < b.toNat
        · by_cases hbc : b.toNat < c.toNat
          · have hac : a.toNat < c.toNat := Nat.lt_trans hab hbc
            simp [hac]
          · by_cases hcb : c.toNat < b.toNat
            · simp [hbc, hcb] at h2
            · have hac : a.toNat < c.toNat := by omega
              simp [hac]
        · by_cases hba : b.toNat < a.toNat
          · simp [hab, hba] at h1
          · simp [hab, hba] at h1
            by_cases hbc : b.toNat < c.toNat
            · have hac : a.toNat < c.toNat := by omega
              simp [hac]
            · by_cases hcb : c.toNat < b.toNat
              · simp [hbc, hcb] at h2
              · simp [hbc, hcb] at h2
                have h3 : ¬ a.toNat < c.toNat := by omega
                have h4 : ¬ c.toNat < a.toNat := by omega
                simp [h3, h4]
                exact ih bs cs h1 h2

theorem charListLe_antisymm : ∀ as bs, charListLe as bs = true → charListLe bs as = true →
    as = bs := by
  intro as
  induction as with
  | nil =>
    intro bs _ h2
    cases bs with
    | nil => rfl
    | cons b bs => simp [charListLe] at h2
  | cons a as ih =>
    intro bs h1 h2
    cases bs with
    | nil => simp [charListLe] at h1
    | cons b bs =>
      simp only [charListLe] at h1 h2
      by_cases hab : a.toNat < b.toNat
      · simp [hab] at h2
        omega
      · by_cases hba : b.toNat < a.toNat
        · simp [hab, hba] at h1
        · simp [hab, hba] at h1 h2
          have hb : a = b := char_eq_of_toNat_eq (by omega)
          rw [hb, ih bs h1 h2]

theorem pyStrLe_antisymm {a b : String} (h1 : pyStrLe a b = true)
    (h2 : pyStrLe b a = true) : a = b := by
  cases a with
  | mk da =>
    cases b with
    | mk db =>
      have : da = db := charListLe_antisymm da db h1 h2
      rw [this]

/-- Sorting relation used to model Python `sorted(self.kwargs.items())`:
tuples are compared componentwise, and since dict keys are unique the second
component is never reached, so the pairs are ordered by their name. -/
def kwLe (a b : String × PyVal) : Prop := pyStrLe a.1 b.1 = true

instance : DecidableRel kwLe := fun a b =>
  inferInstanceAs (Decidable (pyStrLe a.1 b.1 = true))

instance : IsTotal (String × PyVal) kwLe := ⟨fun a b => charListLe_total a.1.data b.1.data⟩

instance : IsTrans (String × PyVal) kwLe :=
  ⟨fun _ _ _ h h' => charListLe_trans _ _ _ h h'⟩

/-- Model of Python `sorted` on the kwarg pairs (see `kwLe`). -/
def sortKwargs (l : List (String × PyVal)) : List (String × PyVal) :=
  l.insertionSort kwLe

/-- Model of Python `sep.join(parts)`. -/
def strJoin (sep : String) : List String → String
  | [] => ""
  | [x] => x
  | x :: y :: rest => x ++ sep ++ strJoin sep (y :: rest)

/-- Embedding of the `ArgsCacheKey.key_str` property body (the memoization
into `self._key_str` is dropped: the claims quantify over keys whose fields
are not mutated between reads, for which the memoized and recomputed strings
agree). -/
def ArgsCacheKey.key_str (k : ArgsCacheKey) : String :=
  let base_key := k.key_type
  let args_str := strJoin "__" (k.args.map pyStr)
  let kwargs_str := strJoin "__"
    ((sortKwargs k.kwargs).map (fun p => p.1 ++ "_" ++ pyStr p.2))
  let s0 := base_key ++ pyStr k.version
  let s1 := if args_str = "" then s0 else s0 ++ "__" ++ args_str
  if kwargs_str = "" then s1 else s1 ++ "__" ++ kwargs_str

example :
    (ArgsCacheKey.make "type" [.vint 1, .vint 2, .vint 3]
      [("other", .vstr "some"), ("some", .vstr "other")]).key_str =
      "type__1__2__3__other_some__some_other" := by decide

example :
    (ArgsCacheKey.make "type" [.vstr ""] []).key_str = "type" := by decide

/-! ## Claim C1: canonical key string of `ArgsCacheKey` -/

theorem sortKwargs_eq_nil_iff (l : List (String × PyVal)) :
    sortKwargs l = [] ↔ l = [] := by
  have hp : List.Perm (sortKwargs l) l := List.perm_insertionSort kwLe l
  constructor
  · intro h
    rw [h] at hp
    exact hp.symm.eq_nil
  · intro h
    rw [h]
    rfl

theorem strJoin_ne_empty {l : List String} (hne : l ≠ []) (h : ∀ x ∈ l, x ≠ "") :
    strJoin "__" l ≠ "" := by
  cases l with
  | nil => exact absurd rfl hne
  | cons x rest =>
    cases rest with
    | nil => simpa [strJoin] using h x (List.mem_cons_self x [])
    | cons y r =>
      intro he
      have hlen := congrArg String.length he
      simp [strJoin, String.length_append] at hlen
      exact absurd hlen.1.2 (by decide)

theorem kwEntry_ne_empty (p : String × PyVal) : p.1 ++ "_" ++ pyStr p.2 ≠ "" := by
  intro h
  have hlen := congrArg String.length h
  simp [String.length_append] at hlen
  exact absurd hlen.1.2 (by decide)

/-- Rendered kwargs section is empty exactly when there are no kwargs. -/
theorem kwargsJoin_eq_empty_iff (l : List (String × PyVal)) :
    strJoin "__" ((sortKwargs l).map (fun p => p.1 ++ "_" ++ pyStr p.2)) = "" ↔ l = [] := by
  constructor
  · intro h
    by_contra hrem
    have hsort : sortKwargs l ≠ [] := fun hs => hrem ((sortKwargs_eq_nil_iff l).mp hs)
    have hmap : (sortKwargs l).map (fun p => p.1 ++ "_" ++ pyStr p.2) ≠ [] := by
      simpa using hsort
    exact strJoin_ne_empty hmap
      (by
        intro x hx
        rcases List.mem_map.mp hx with ⟨p, _, rfl⟩
        exact kwEntry_ne_empty p) h
  · intro h
    rw [h]
    rfl

/-- Formalization of claim C1's description of `key_str` as the claim states
it: the key type concatenated with the version, then the positional section
(present exactly when there is at least one positional arg), then the kwarg
section for the remaining kwargs sorted ascending by name (present exactly
when there is at least one remaining kwarg), each section preceded by
`"__"`. -/
def keyStrClaimedC1 (key_type : String) (args : List PyVal)
    (kwargs : List (String × PyVal)) : String :=
  let rem := odRemove (odRemove kwargs "timeout") "key_version"
  key_type ++ pyStr ((odLookup kwargs "key_version").getD (.vstr ""))
    ++ (match args with
        | [] => ""
        | _ => "__" ++ strJoin "__" (args.map pyStr))
    ++ (match rem with
        | [] => ""
        | _ => "__" ++ strJoin "__"
          ((sortKwargs rem).map (fun p => p.1 ++ "_" ++ pyStr p.2)))

/-- C1, counterexample: a single positional argument that renders to the
empty string (`ArgsCacheKey("type", "")`) produces the key string `"type"`,
while the claim's description (positional section present whenever there is
at least one positional arg) yields `"type__"`. -/
theorem c1_counterexample :
    (ArgsCacheKey.make "type" [.vstr ""] []).key_str ≠
      keyStrClaimedC1 "type" [.vstr ""] [] := by decide

/-- C1 (amended): `key_str` of an `ArgsCacheKey` built from a key type,
positional args and keyword args (after the reserved names `timeout` and
`key_version` are removed) is the key type concatenated with the version,
then a `"__"`-joined section of `str(arg)` for the positional args in
original order — present only when that joined string is non-empty (in
particular absent when a lone positional arg renders to the empty string,
the correction forced by `c1_counterexample`) — then a `"__"`-joined section
of `name_value` entries for the remaining kwargs sorted ascending by name,
present only when there is at least one remaining kwarg, each section
preceded by `"__"`; and the concrete key of the claim renders to
`"type__1__2__3__other_some__some_other"`. -/
theorem c1_key_str_characterization (key_type : String) (args : List PyVal)
    (kwargs : List (String × PyVal)) :
    ((ArgsCacheKey.make key_type args kwargs).key_str =
      key_type ++ pyStr ((odLookup kwargs "key_version").getD (.vstr ""))
        ++ (if strJoin "__" (args.map pyStr) = "" then ""
            else "__" ++ strJoin "__" (args.map pyStr))
        ++ (match odRemove (odRemove kwargs "timeout") "key_version" with
            | [] => ""
            | _ => "__" ++ strJoin "__"
              ((sortKwargs (odRemove (odRemove kwargs "timeout") "key_version")).map
                (fun p => p.1 ++ "_" ++ pyStr p.2))))
    ∧ List.Sorted kwLe (sortKwargs (odRemove (odRemove kwargs "timeout") "key_version"))
    ∧ List.Perm (sortKwargs (odRemove (odRemove kwargs "timeout") "key_version"))
        (odRemove (odRemove kwargs "timeout") "key_version")
    ∧ (ArgsCacheKey.make "type" [.vint 1, .vint 2, .vint 3]
        [("other", .vstr "some"), ("some", .vstr "other")]).key_str =
        "type__1__2__3__other_some__some_other" := by
  refine ⟨?_, List.sorted_insertionSort kwLe _, List.perm_insertionSort kwLe _, by decide⟩
  have hK := kwargsJoin_eq_empty_iff (odRemove (odRemove kwargs "timeout") "key_version")
  cases hrem : odRemove (odRemove kwargs "timeout") "key_version" with
  | nil =>
    by_cases hA : strJoin "__" (args.map pyStr) = "" <;>
      simp [ArgsCacheKey.key_str, ArgsCacheKey.make, hrem, hA, sortKwargs, strJoin,
        String.append_empty, String.append_assoc]
  | cons p l =>
    have hKne : strJoin "__"
        ((sortKwargs (p :: l)).map (fun q => q.1 ++ "_" ++ pyStr q.2)) ≠ "" := by
      intro h
      have hnil := hK.mp (by rw [hrem]; exact h)
      rw [hnil] at hrem
      exact List.noConfusion hrem
    by_cases hA : strJoin "__" (args.map pyStr) = ""
    · simp only [ArgsCacheKey.key_str, ArgsCacheKey.make, hrem]
      rw [if_neg hKne, if_pos hA]
      simp [hA, String.append_empty, String.append_assoc]
    · simp only [ArgsCacheKey.key_str, ArgsCacheKey.make, hrem]
      rw [if_neg hKne, if_neg hA]
      simp [hA, String.append_empty, String.append_assoc]

/-! ## Argument normalization (`key_builder.py` lines 30–67 and 120–152,
`cache.py` lines 32–67) -/

/-- Introspected signature of a Python callable, as returned by
`inspect.getargspec`: the declared parameter names and whether the callable
declares variadic positional parameters (`*args`). -/
structure FuncSpec : Type where
  args : List String
  varargs : Bool
deriving Repr, DecidableEq

/-- Exceptions raised by the embedded code.  `signatureError` is the
`ValueError("method must not have vargargs on its signature")` of the
normalizers (the spec's `SignatureError`); `configurationError` is the
`ValueError` raised by `generic_cached_method` when the cache attribute is
not a `GenericCache` (the spec's `ConfigurationError`); the others model the
standard Python exceptions of the corresponding operations. -/
inductive PyError : Type where
  | signatureError
  | indexError
  | keyError
  | attributeError (name : String)
  | configurationError (msg : String)
deriving Repr, DecidableEq

/-- Embedding of `key_builder._get_func_kwargs(method, *args, **kwargs)`:
raises for variadic signatures, maps the i-th positional arg to the i-th
declared parameter name (raising `IndexError` when there are more positional
args than parameters), then updates with the keyword args. -/
def _get_func_kwargs (spec : FuncSpec) (args : List PyVal)
    (kwargs : List (String × PyVal)) : Except PyError (List (String × PyVal)) :=
  if spec.varargs then .error .signatureError
  else if spec.args.length < args.length then .error .indexError
  else .ok (odUpdate ((spec.args.zip args).foldl
    (fun m p => odInsert m p.1 p.2) []) kwargs)

/-- Embedding of `cache._get_method_kwargs(method, *args, **kwargs)`: same
check for variadic signatures, but starts from a copy of the keyword args
and maps the i-th positional arg to the (i+1)-th declared parameter name
(skipping the `self`/`cls` slot), raising `IndexError` when the positional
args overrun the declared parameters. -/
def _get_method_kwargs (spec : FuncSpec) (args : List PyVal)
    (kwargs : List (String × PyVal)) : Except PyError (List (String × PyVal)) :=
  if spec.varargs then .error .signatureError
  else if 0 < args.length ∧ spec.args.length < args.length + 1 then .error .indexError
  else .ok (((spec.args.drop 1).zip args).foldl
    (fun m p => odInsert m p.1 p.2) kwargs)

/-- Shared shape of `build_key` of the key builders: normalize, then build an
`ArgsCacheKey` with no positional args and the normalized mapping as kwargs
(`key_builder.py` lines 129–131, with `get_normalized_kwargs` dispatched to
the subclass). -/
def buildKeyWith
    (norm : FuncSpec → List PyVal → List (String × PyVal) →
      Except PyError (List (String × PyVal)))
    (key_pref : String) (spec : FuncSpec) (args : List PyVal)
    (kwargs : List (String × PyVal)) : Except PyError ArgsCacheKey :=
  (norm spec args kwargs).map (fun m => ArgsCacheKey.make key_pref [] m)

/-- Embedding of `FunctionKeyBuilder.build_key`. -/
def FunctionKeyBuilder.build_key : String → FuncSpec → List PyVal →
    List (String × PyVal) → Except PyError ArgsCacheKey :=
  buildKeyWith _get_func_kwargs

/-- Embedding of `MethodKeyBuilder.get_normalized_kwargs`: the function
normalization followed by `kwargs.pop('self')`, which removes the entry
named `self` and raises `KeyError` when there is none. -/
def MethodKeyBuilder.get_normalized_kwargs (spec : FuncSpec) (args : List PyVal)
    (kwargs : List (String × PyVal)) : Except PyError (List (String × PyVal)) :=
  match _get_func_kwargs spec args kwargs with
  | .error e => .error e
  | .ok m =>
    if m.any (fun p => p.1 = "self") then .ok (odRemove m "self")
    else .error .keyError

/-- Embedding of `MethodKeyBuilder.build_key` (inherited body, dispatching
to the method normalizer). -/
def MethodKeyBuilder.build_key : String → FuncSpec → List PyVal →
    List (String × PyVal) → Except PyError ArgsCacheKey :=
  buildKeyWith MethodKeyBuilder.get_normalized_kwargs

/-- Embedding of `AttrsMethodKeyBuilder(attrs).get_normalized_kwargs`: the
method normalization, then for each configured attribute name reads that
attribute off the receiver (the first positional call-site argument) and
inserts it into the mapping. -/
def AttrsMethodKeyBuilder.get_normalized_kwargs (attrs : List String)
    (spec : FuncSpec) (args : List PyVal) (kwargs : List (String × PyVal)) :
    Except PyError (List (String × PyVal)) :=
  match MethodKeyBuilder.get_normalized_kwargs spec args kwargs with
  | .error e => .error e
  | .ok m =>
    match args with
    | [] => .error .indexError
    | inst :: _ =>
      attrs.foldlM (fun acc a =>
        match pyGetattr inst a with
        | some v => Except.ok (odInsert acc a v)
        | none => Except.error (.attributeError a)) m

/-- Embedding of `AttrsMethodKeyBuilder.build_key` (inherited body). -/
def AttrsMethodKeyBuilder.build_key (attrs : List String) : String → FuncSpec →
    List PyVal → List (String × PyVal) → Except PyError ArgsCacheKey :=
  buildKeyWith (AttrsMethodKeyBuilder.get_normalized_kwargs attrs)

example :
    (FunctionKeyBuilder.build_key "sample" ⟨["a", "b", "c"], false⟩
      [.vint 1, .vint 2, .vint 3] []).map ArgsCacheKey.key_str =
      .ok "sample__a_1__b_2__c_3" := rfl

example :
    (FunctionKeyBuilder.build_key "sample" ⟨["a", "b", "c"], false⟩
      [.vint 1] [("b", .vint 2), ("c", .vint 3)]).map ArgsCacheKey.key_str =
      .ok "sample__a_1__b_2__c_3" := rfl

example :
    (MethodKeyBuilder.build_key "sample" ⟨["self", "a", "b"], false⟩
      [.vobj [], .vint 1, .vint 2] []).map ArgsCacheKey.key_str =
      .ok "sample__a_1__b_2" := rfl

example :
    (AttrsMethodKeyBuilder.build_key ["id"] "sample" ⟨["self", "a"], false⟩
      [.vobj [("id", .vstr "uniq")], .vint 1] []).map ArgsCacheKey.key_str =
      .ok "sample__a_1__id_uniq" := rfl

/-! ## Dictionary and sorting lemmas -/

theorem odInsert_fresh (m : List (String × PyVal)) (k : String) (v : PyVal)
    (h : k ∉ m.map Prod.fst) : odInsert m k v = m ++ [(k, v)] := by
  unfold odInsert
  rw [if_neg]
  intro hc
  simp only [List.any_eq_true, decide_eq_true_eq] at hc
  rcases hc with ⟨p, hp, he⟩
  exact h (he ▸ List.mem_map_of_mem Prod.fst hp)

theorem foldl_odInsert_append : ∀ (ps m : List (String × PyVal)),
    (∀ q ∈ ps, q.1 ∉ m.map Prod.fst) → (ps.map Prod.fst).Nodup →
    ps.foldl (fun acc p => odInsert acc p.1 p.2) m = m ++ ps := by
  intro ps
  induction ps with
  | nil => intro m _ _; simp
  | cons q ps ih =>
    intro m hfresh hnd
    rw [List.map_cons, List.nodup_cons] at hnd
    have hfresh2 : ∀ p ∈ ps, p.1 ∉ (m ++ [q]).map Prod.fst := by
      intro p hp
      simp only [List.map_append, List.mem_append, List.map_cons, List.map_nil,
        List.mem_singleton]
      rintro (hm | hq)
      · exact hfresh p (List.mem_cons_of_mem q hp) hm
      · exact hnd.1 (hq ▸ List.mem_map_of_mem Prod.fst hp)
    simp only [List.foldl_cons]
    rw [odInsert_fresh m q.1 q.2 (hfresh q (List.mem_cons_self q ps))]
    rw [ih (m ++ [q]) hfresh2 hnd.2]
    simp

theorem odLookup_eq_some_iff {l : List (String × PyVal)}
    (hnd : (l.map Prod.fst).Nodup) (n : String) (v : PyVal) :
    odLookup l n = some v ↔ (n, v) ∈ l := by
  induction l with
  | nil => simp [odLookup]
  | cons p rest ih =>
    rw [List.map_cons, List.nodup_cons] at hnd
    simp only [odLookup, List.mem_cons]
    by_cases he : p.1 = n
    · rw [if_pos he]
      constructor
      · intro h
        injection h with h
        left
        rw [← h, ← he]
      · rintro (h | h)
        · rw [← h]
        · exact absurd (he ▸ List.mem_map_of_mem Prod.fst h : p.1 ∈ _) hnd.1
    · rw [if_neg he, ih hnd.2]
      constructor
      · exact Or.inr
      · rintro (h | h)
        · exact absurd (congrArg Prod.fst h).symm he
        · exact h

theorem odLookup_eq_none_iff (l : List (String × PyVal)) (n : String) :
    odLookup l n = none ↔ n ∉ l.map Prod.fst := by
  induction l with
  | nil => simp [odLookup]
  | cons p rest ih =>
    simp only [odLookup, List.map_cons, List.mem_cons]
    by_cases he : p.1 = n
    · simp [he]
    · rw [if_neg he, ih]
      constructor
      · intro h
        rintro (hc | hc)
        · exact he hc.symm
        · exact h hc
      · intro h hc
        exact h (Or.inr hc)

theorem odLookup_perm {l1 l2 : List (String × PyVal)} (hperm : List.Perm l1 l2)
    (hnd : (l1.map Prod.fst).Nodup) (n : String) :
    odLookup l1 n = odLookup l2 n := by
  have hnd2 : (l2.map Prod.fst).Nodup := ((hperm.map Prod.fst).nodup_iff).mp hnd
  cases h1 : odLookup l1 n with
  | none =>
    have hn := (odLookup_eq_none_iff l1 n).mp h1
    have h2 : n ∉ l2.map Prod.fst := fun hc =>
      hn (((hperm.map Prod.fst).mem_iff).mpr hc)
    exact ((odLookup_eq_none_iff l2 n).mpr h2).symm
  | some v =>
    have hm := (odLookup_eq_some_iff hnd n v).mp h1
    exact ((odLookup_eq_some_iff hnd2 n v).mpr (hperm.subset hm)).symm

/-- Strict variant of `kwLe` used to transport sorted permutations: entries
are ordered and their names differ. -/
def kwLt (a b : String × PyVal) : Prop := kwLe a b ∧ a.1 ≠ b.1

instance : IsAntisymm (String × PyVal) kwLt :=
  ⟨fun a b h1 h2 => absurd (pyStrLe_antisymm h1.1 h2.1) h1.2⟩

theorem sorted_kwLt_of_sorted_kwLe {l : List (String × PyVal)}
    (hs : List.Sorted kwLe l) (hnd : (l.map Prod.fst).Nodup) :
    List.Sorted kwLt l := by
  have hpw : l.Pairwise (fun a b : String × PyVal => a.1 ≠ b.1) :=
    List.pairwise_map.mp hnd
  exact List.Pairwise.and hs hpw

theorem sortKwargs_eq_of_perm {l1 l2 : List (String × PyVal)}
    (hperm : List.Perm l1 l2) (hnd : (l1.map Prod.fst).Nodup) :
    sortKwargs l1 = sortKwargs l2 := by
  have hp1 : List.Perm (sortKwargs l1) l1 := List.perm_insertionSort kwLe l1
  have hp2 : List.Perm (sortKwargs l2) l2 := List.perm_insertionSort kwLe l2
  have hpp : List.Perm (sortKwargs l1) (sortKwargs l2) :=
    hp1.trans (hperm.trans hp2.symm)
  have hnd1 : ((sortKwargs l1).map Prod.fst).Nodup :=
    ((hp1.map Prod.fst).nodup_iff).mpr hnd
  have hnd2 : ((sortKwargs l2).map Prod.fst).Nodup := by
    have hx := ((hperm.map Prod.fst).nodup_iff).mp hnd
    exact ((hp2.map Prod.fst).nodup_iff).mpr hx
  exact List.eq_of_perm_of_sorted hpp
    (sorted_kwLt_of_sorted_kwLe (List.sorted_insertionSort kwLe l1) hnd1)
    (sorted_kwLt_of_sorted_kwLe (List.sorted_insertionSort kwLe l2) hnd2)

/-- Keys that are permutations of each other with unique names render to the
same canonical string when used as the kwargs of an `ArgsCacheKey`. -/
theorem make_key_str_perm (kt : String) {m1 m2 : List (String × PyVal)}
    (hperm : List.Perm m1 m2) (hnd : (m1.map Prod.fst).Nodup) :
    (ArgsCacheKey.make kt [] m1).key_str = (ArgsCacheKey.make kt [] m2).key_str := by
  have hv : odLookup m1 "key_version" = odLookup m2 "key_version" :=
    odLookup_perm hperm hnd "key_version"
  have hrem : List.Perm (odRemove (odRemove m1 "timeout") "key_version")
      (odRemove (odRemove m2 "timeout") "key_version") :=
    (hperm.filter _).filter _
  have hsub : (odRemove (odRemove m1 "timeout") "key_version").Sublist m1 :=
    (List.filter_sublist _).trans (List.filter_sublist _)
  have hndrem : ((odRemove (odRemove m1 "timeout") "key_version").map Prod.fst).Nodup :=
    hnd.sublist (hsub.map Prod.fst)
  have hsort : sortKwargs (odRemove (odRemove m1 "timeout") "key_version") =
      sortKwargs (odRemove (odRemove m2 "timeout") "key_version") :=
    sortKwargs_eq_of_perm hrem hndrem
  simp only [ArgsCacheKey.key_str, ArgsCacheKey.make, hv, hsort]

theorem zip_truncate : ∀ (l1 : List String) (l2 : List PyVal),
    l1.zip l2 = (l1.take l2.length).zip l2 := by
  intro l1
  induction l1 with
  | nil => intro l2; simp
  | cons a l1 ih =>
    intro l2
    cases l2 with
    | nil => simp
    | cons b l2 =>
      simp only [List.length_cons, List.take_succ_cons, List.zip_cons_cons]
      rw [ih l2]

/-! ## Claim C2: call-form equivalence of `FunctionKeyBuilder.build_key` -/

/-- Normalizing a call that supplies the first `k` parameter values
positionally and the remaining ones by keyword (in any order) succeeds and
yields a mapping that is a permutation of the full name-to-value pairing. -/
theorem funcKwargs_of_split (spec : FuncSpec) (vs : List PyVal) (k : Nat)
    (kws : List (String × PyVal))
    (hvar : spec.varargs = false)
    (hnd : spec.args.Nodup)
    (hlen : vs.length = spec.args.length)
    (hk : k ≤ vs.length)
    (hp : List.Perm kws ((spec.args.drop k).zip (vs.drop k))) :
    _get_func_kwargs spec (vs.take k) kws =
      .ok ((spec.args.take k).zip (vs.take k) ++ kws) ∧
    List.Perm ((spec.args.take k).zip (vs.take k) ++ kws) (spec.args.zip vs) := by
  have hlt : (vs.take k).length = k := by
    rw [List.length_take]
    omega
  have htz : spec.args.zip (vs.take k) = (spec.args.take k).zip (vs.take k) := by
    rw [zip_truncate spec.args (vs.take k), hlt]
  have hkeystake : ((spec.args.take k).zip (vs.take k)).map Prod.fst =
      spec.args.take k := by
    apply List.map_fst_zip
    rw [List.length_take, List.length_take]
    omega
  have hndtake : (((spec.args.take k).zip (vs.take k)).map Prod.fst).Nodup := by
    rw [hkeystake]
    exact hnd.sublist (List.take_sublist k spec.args)
  have hkeysdrop : ((spec.args.drop k).zip (vs.drop k)).map Prod.fst =
      spec.args.drop k := by
    apply List.map_fst_zip
    rw [List.length_drop, List.length_drop]
    omega
  have hfold1 : (spec.args.zip (vs.take k)).foldl (fun m p => odInsert m p.1 p.2) [] =
      (spec.args.take k).zip (vs.take k) := by
    rw [htz]
    simpa using foldl_odInsert_append ((spec.args.take k).zip (vs.take k)) []
      (by simp) hndtake
  have hfresh : ∀ q ∈ kws, q.1 ∉ ((spec.args.take k).zip (vs.take k)).map Prod.fst := by
    intro q hq
    rw [hkeystake]
    intro hmem
    have hq2 : q ∈ (spec.args.drop k).zip (vs.drop k) := hp.subset hq
    have hq3 : q.1 ∈ spec.args.drop k := by
      rw [← hkeysdrop]
      exact List.mem_map_of_mem Prod.fst hq2
    exact List.disjoint_take_drop hnd (le_refl k) hmem hq3
  have hndkws : (kws.map Prod.fst).Nodup := by
    have h1 := hp.map Prod.fst
    rw [hkeysdrop] at h1
    exact (h1.nodup_iff).mpr (hnd.sublist (List.drop_sublist k spec.args))
  have hupd : odUpdate ((spec.args.take k).zip (vs.take k)) kws =
      (spec.args.take k).zip (vs.take k) ++ kws :=
    foldl_odInsert_append kws _ hfresh hndkws
  constructor
  · unfold _get_func_kwargs
    rw [if_neg (by rw [hvar]; exact Bool.false_ne_true)]
    rw [if_neg (by rw [hlt]; omega)]
    rw [hfold1]
    rw [hupd]
  · have happ : List.Perm ((spec.args.take k).zip (vs.take k) ++ kws)
        ((spec.args.take k).zip (vs.take k) ++ (spec.args.drop k).zip (vs.drop k)) :=
      List.Perm.append_left _ hp
    have hz : (spec.args.take k).zip (vs.take k) ++ (spec.args.drop k).zip (vs.drop k) =
        spec.args.zip vs := by
      rw [← List.zip_append (by rw [List.length_take, List.length_take]; omega)]
      rw [List.take_append_drop, List.take_append_drop]
    exact hz ▸ happ

/-- C2: for a function with a fixed declared parameter list (no variadic
positional parameters) and distinct parameter names, any two invocations
that supply the same parameter values — the first `k` positionally and the
rest by keyword in any order — produce keys with identical `key_str` under
`FunctionKeyBuilder.build_key` with the same same configured key type string; and the four
invocation forms of the claim all yield `"sample__a_1__b_2__c_3"`. -/
theorem c2_call_form_equivalence (key_pref : String) (spec : FuncSpec)
    (vs : List PyVal) (k1 k2 : Nat) (kws1 kws2 : List (String × PyVal))
    (hvar : spec.varargs = false) (hnd : spec.args.Nodup)
    (hlen : vs.length = spec.args.length)
    (hk1 : k1 ≤ vs.length) (hk2 : k2 ≤ vs.length)
    (hp1 : List.Perm kws1 ((spec.args.drop k1).zip (vs.drop k1)))
    (hp2 : List.Perm kws2 ((spec.args.drop k2).zip (vs.drop k2))) :
    ((FunctionKeyBuilder.build_key key_pref spec (vs.take k1) kws1).map
        ArgsCacheKey.key_str =
      (FunctionKeyBuilder.build_key key_pref spec (vs.take k2) kws2).map
        ArgsCacheKey.key_str)
    ∧ ((FunctionKeyBuilder.build_key "sample" ⟨["a", "b", "c"], false⟩
        [.vint 1, .vint 2, .vint 3] []).map ArgsCacheKey.key_str =
          .ok "sample__a_1__b_2__c_3"
      ∧ (FunctionKeyBuilder.build_key "sample" ⟨["a", "b", "c"], false⟩
        [.vint 1, .vint 2] [("c", .vint 3)]).map ArgsCacheKey.key_str =
          .ok "sample__a_1__b_2__c_3"
      ∧ (FunctionKeyBuilder.build_key "sample" ⟨["a", "b", "c"], false⟩
        [.vint 1] [("b", .vint 2), ("c", .vint 3)]).map ArgsCacheKey.key_str =
          .ok "sample__a_1__b_2__c_3"
      ∧ (FunctionKeyBuilder.build_key "sample" ⟨["a", "b", "c"], false⟩
        [] [("a", .vint 1), ("b", .vint 2), ("c", .vint 3)]).map ArgsCacheKey.key_str =
          .ok "sample__a_1__b_2__c_3") := by
  refine ⟨?_, rfl, rfl, rfl, rfl⟩
  obtain ⟨he1, hper1⟩ := funcKwargs_of_split spec vs k1 kws1 hvar hnd hlen hk1 hp1
  obtain ⟨he2, hper2⟩ := funcKwargs_of_split spec vs k2 kws2 hvar hnd hlen hk2 hp2
  unfold FunctionKeyBuilder.build_key buildKeyWith
  rw [he1, he2]
  simp only [Except.map]
  have hndm : ((((spec.args.take k1).zip (vs.take k1)) ++ kws1).map Prod.fst).Nodup := by
    refine ((hper1.map Prod.fst).nodup_iff).mpr ?_
    rw [List.map_fst_zip spec.args vs (by omega)]
    exact hnd
  exact congrArg Except.ok
    (make_key_str_perm key_pref (hper1.trans hper2.symm) hndm)

/-- Witness for `c2_call_form_equivalence`: the fully-positional and the
mostly-keyword invocation of `f(a, b, c)` with values `1, 2, 3` yield the
same key string. -/
theorem c2_call_form_equivalence_witness :
    (FunctionKeyBuilder.build_key "sample" ⟨["a", "b", "c"], false⟩
      ([PyVal.vint 1, PyVal.vint 2, PyVal.vint 3].take 3) []).map ArgsCacheKey.key_str =
    (FunctionKeyBuilder.build_key "sample" ⟨["a", "b", "c"], false⟩
      ([PyVal.vint 1, PyVal.vint 2, PyVal.vint 3].take 1)
      [("b", PyVal.vint 2), ("c", PyVal.vint 3)]).map ArgsCacheKey.key_str :=
  (c2_call_form_equivalence "sample" ⟨["a", "b", "c"], false⟩
    [.vint 1, .vint 2, .vint 3] 3 1 [] [("b", .vint 2), ("c", .vint 3)]
    rfl (by decide) rfl (by decide) (by decide)
    (List.Perm.refl _) (List.Perm.refl _)).1

/-! ## Claim C7: `SignatureError` on variadic signatures -/

theorem exceptMap_error_iff {A B : Type} (f : A → B) (x : Except PyError A)
    (e : PyError) : x.map f = .error e ↔ x = .error e := by
  cases x <;> simp [Except.map]

/-- C7: normalizing a call's arguments (via `_get_func_kwargs`,
`_get_method_kwargs`, or `build_key` of the function and method key
builders) fails with the `SignatureError` `ValueError` exactly for callables
declaring variadic positional parameters; callables with a fixed arity are
never normalized to that error. -/
theorem c7_signature_error (key_pref : String) (spec : FuncSpec)
    (args : List PyVal) (kwargs : List (String × PyVal)) :
    (spec.varargs = true →
      _get_func_kwargs spec args kwargs = .error .signatureError ∧
      _get_method_kwargs spec args kwargs = .error .signatureError ∧
      FunctionKeyBuilder.build_key key_pref spec args kwargs = .error .signatureError ∧
      MethodKeyBuilder.build_key key_pref spec args kwargs = .error .signatureError)
    ∧ (spec.varargs = false →
      _get_func_kwargs spec args kwargs ≠ .error .signatureError ∧
      _get_method_kwargs spec args kwargs ≠ .error .signatureError ∧
      FunctionKeyBuilder.build_key key_pref spec args kwargs ≠ .error .signatureError ∧
      MethodKeyBuilder.build_key key_pref spec args kwargs ≠ .error .signatureError) := by
  constructor
  · intro hv
    have hf : _get_func_kwargs spec args kwargs = .error .signatureError := by
      unfold _get_func_kwargs
      rw [if_pos hv]
    have hm : _get_method_kwargs spec args kwargs = .error .signatureError := by
      unfold _get_method_kwargs
      rw [if_pos hv]
    refine ⟨hf, hm, ?_, ?_⟩
    · unfold FunctionKeyBuilder.build_key buildKeyWith
      rw [hf]
      rfl
    · unfold MethodKeyBuilder.build_key buildKeyWith MethodKeyBuilder.get_normalized_kwargs
      rw [hf]
      rfl
  · intro hv
    have hfne : _get_func_kwargs spec args kwargs ≠ .error .signatureError := by
      unfold _get_func_kwargs
      rw [if_neg (by rw [hv]; exact Bool.false_ne_true)]
      split <;> simp
    have hmne : _get_method_kwargs spec args kwargs ≠ .error .signatureError := by
      unfold _get_method_kwargs
      rw [if_neg (by rw [hv]; exact Bool.false_ne_true)]
      split <;> simp
    refine ⟨hfne, hmne, ?_, ?_⟩
    · unfold FunctionKeyBuilder.build_key buildKeyWith
      intro hc
      exact hfne ((exceptMap_error_iff _ _ _).mp hc)
    · unfold MethodKeyBuilder.build_key buildKeyWith
      intro hc
      have hg := (exceptMap_error_iff _ _ _).mp hc
      unfold MethodKeyBuilder.get_normalized_kwargs at hg
      cases he : _get_func_kwargs spec args kwargs with
      | error e =>
        rw [he] at hg
        simp only [Except.error.injEq] at hg
        exact hfne (by rw [he, hg])
      | ok m =>
        rw [he] at hg
        have hg2 : (if (m.any fun p => p.1 = "self") = true then
            (Except.ok (odRemove m "self") : Except PyError (List (String × PyVal)))
          else Except.error PyError.keyError) = Except.error PyError.signatureError := hg
        by_cases hs : (m.any fun p => p.1 = "self") = true
        · rw [if_pos hs] at hg2
          exact Except.noConfusion hg2
        · rw [if_neg hs] at hg2
          simp at hg2

/-- Witness for `c7_signature_error`: a variadic single-parameter signature
is rejected with the signature error, the same fixed signature is not. -/
theorem c7_signature_error_witness :
    _get_func_kwargs ⟨["a"], true⟩ [] [] = .error .signatureError ∧
    _get_func_kwargs ⟨["a"], false⟩ [] [] ≠ .error .signatureError :=
  ⟨((c7_signature_error "sample" ⟨["a"], true⟩ [] []).1 rfl).1,
   ((c7_signature_error "sample" ⟨["a"], false⟩ [] []).2 rfl).1⟩

/-! ## Claim C5: receiver exclusion in `MethodKeyBuilder` -/

/-- C5, counterexample: `MethodKeyBuilder.get_normalized_kwargs` pops the
entry literally named `self`, not the first declared parameter; for a method
whose receiver parameter is named `cls`, the `pop('self')` raises `KeyError`
instead of dropping the receiver `cls` from the mapping as the claim
describes. -/
theorem c5_counterexample :
    MethodKeyBuilder.get_normalized_kwargs ⟨["cls", "a"], false⟩
      [.vobj [], .vint 1] [] = .error .keyError ∧
    (Except.error PyError.keyError : Except PyError (List (String × PyVal))) ≠
      .ok [("a", PyVal.vint 1)] :=
  ⟨rfl, fun h => Except.noConfusion h⟩

/-- C5 (amended): `MethodKeyBuilder` normalization drops the parameter named
`self` — the conventional receiver name, which the claim calls the first
declared parameter — from the normalized mapping, while still consuming the
receiver positionally from the call-site args so the remaining args align to
their parameter names; and `AttrsMethodKeyBuilder(["id"])` additionally
reads the attribute `id` off the receiver (the first positional call-site
argument) and inserts it into the mapping, so that for a receiver with
`id="uniq"` and the call `sample_method(1)` under `"sample"` the key string
is `"sample__a_1__id_uniq"`.  (The correction forced by `c5_counterexample`:
when no parameter is named `self` — e.g. a receiver named `cls` — the code
raises `KeyError` instead of dropping the first parameter.) -/
theorem c5_method_receiver_amended (rest : List String) (vs : List PyVal)
    (r : PyVal) (hnd : rest.Nodup) (hself : "self" ∉ rest)
    (hlen : vs.length = rest.length) :
    (MethodKeyBuilder.get_normalized_kwargs ⟨"self" :: rest, false⟩ (r :: vs) [] =
      .ok (rest.zip vs))
    ∧ (AttrsMethodKeyBuilder.build_key ["id"] "sample" ⟨["self", "a"], false⟩
        [.vobj [("id", .vstr "uniq")], .vint 1] []).map ArgsCacheKey.key_str =
        .ok "sample__a_1__id_uniq" := by
  refine ⟨?_, rfl⟩
  have hkeys : (("self" :: rest).zip (r :: vs)).map Prod.fst = "self" :: rest := by
    apply List.map_fst_zip
    simp [hlen]
  have hndz : ((("self" :: rest).zip (r :: vs)).map Prod.fst).Nodup := by
    rw [hkeys]
    exact List.nodup_cons.mpr ⟨hself, hnd⟩
  have hok : _get_func_kwargs ⟨"self" :: rest, false⟩ (r :: vs) [] =
      .ok (("self", r) :: rest.zip vs) := by
    unfold _get_func_kwargs
    rw [if_neg (by exact Bool.false_ne_true)]
    rw [if_neg (by simp [hlen])]
    unfold odUpdate
    simp only [List.foldl_nil]
    have hfold := foldl_odInsert_append (("self" :: rest).zip (r :: vs)) []
      (by simp) hndz
    rw [hfold]
    simp [List.zip_cons_cons]
  unfold MethodKeyBuilder.get_normalized_kwargs
  rw [hok]
  have hany : ((("self", r) :: rest.zip vs).any fun p => p.1 = "self") = true := by
    simp
  show (if ((("self", r) :: rest.zip vs).any fun p => p.1 = "self") = true then
      (Except.ok (odRemove (("self", r) :: rest.zip vs) "self") :
        Except PyError (List (String × PyVal)))
    else Except.error PyError.keyError) = Except.ok (rest.zip vs)
  rw [if_pos hany]
  have hrem : odRemove (("self", r) :: rest.zip vs) "self" = rest.zip vs := by
    unfold odRemove
    rw [List.filter_cons]
    have hc : ¬ (("self", r).1 ≠ "self") := by simp
    rw [if_neg (by simpa using hc)]
    rw [List.filter_eq_self.mpr]
    intro p hp
    have hp1 : p.1 ∈ rest := by
      have hmem := List.mem_map_of_mem Prod.fst hp
      have hkr : (rest.zip vs).map Prod.fst = rest :=
        List.map_fst_zip rest vs (by omega)
      rwa [hkr] at hmem
    simp only [ne_eq, decide_eq_true_eq]
    intro hc2
    exact hself (hc2 ▸ hp1)
  rw [hrem]

/-- Witness for `c5_method_receiver_amended`: a two-parameter method
`(self, a, b)` called with a receiver and `(1, 2)` normalizes to
`a=1, b=2`. -/
theorem c5_method_receiver_amended_witness :
    MethodKeyBuilder.get_normalized_kwargs ⟨"self" :: ["a", "b"], false⟩
      (PyVal.vobj [] :: [PyVal.vint 1, PyVal.vint 2]) [] =
      .ok (["a", "b"].zip [PyVal.vint 1, PyVal.vint 2]) :=
  (c5_method_receiver_amended ["a", "b"] [.vint 1, .vint 2] (.vobj [])
    (by decide) (by decide) rfl).1

/-! ## Backend (`backend.py`) and orchestration (`cache.py` lines 140–334)

The `InMemoryCache` backend stores, per string key, the cached Python value
(an `Option α`, `none` modelling Python `None`) together with an optional
absolute expiry instant.  `datetime.now()` is modelled by an explicit `now`
parameter of type `Int` (seconds); `timedelta(seconds=t)` is addition.
Backend effects are additionally recorded in a trace of `BOp` operations so
that frame claims ("no delete calls", "no backend operation") are statable;
`computeCalls` counts invocations of the argumentless fallback function,
whose result is the pure value `func`. -/

/-- Contents of `InMemoryCache._cache`: an insertion-ordered dict from key
strings to `(value, expires_in)` pairs. -/
abbrev Store (α : Type) : Type := List (String × (Option α × Option Int))

/-- Dict lookup `self._cache.get(key, (None, None))` restricted to presence. -/
def storeLookup {α : Type} : Store α → String → Option (Option α × Option Int)
  | [], _ => none
  | p :: rest, k => if p.1 = k then some p.2 else storeLookup rest k

/-- Dict assignment `self._cache[key] = entry`. -/
def storeInsert {α : Type} (st : Store α) (k : String)
    (entry : Option α × Option Int) : Store α :=
  if st.any (fun p => p.1 = k) then
    st.map (fun p => if p.1 = k then (p.1, entry) else p)
  else st ++ [(k, entry)]

/-- Embedding of `InMemoryCache.get`: absent and expired keys read as `None`;
a key whose stored value is `None` also reads as `None`. -/
def InMemoryCache.get {α : Type} (st : Store α) (now : Int) (k : String) :
    Option α :=
  match storeLookup st k with
  | none => none
  | some (v, e) =>
    match e with
    | some t => if t < now then none else v
    | none => v

/-- Embedding of `InMemoryCache.set`: stores the value with expiry
`now + timeout` when a timeout is given, no expiry otherwise. -/
def InMemoryCache.set {α : Type} (st : Store α) (now : Int) (k : String)
    (v : Option α) (timeout : Option Int) : Store α :=
  storeInsert st k (v, timeout.map (fun t => now + t))

/-- Embedding of `InMemoryCache.delete`: `self._cache.pop(key, None)`. -/
def InMemoryCache.delete {α : Type} (st : Store α) (k : String) : Store α :=
  st.filter (fun p => p.1 ≠ k)

/-- Backend operations, recorded for frame reasoning. -/
inductive BOp (α : Type) : Type where
  | get (key : String)
  | set (key : String) (value : Option α) (timeout : Option Int)
  | delete (key : String)

/-- The two attributes `GenericCache` reads off a key object: its string
form `key_str` and its `timeout` (any `BaseCacheKey`-like object works). -/
structure CacheKeyView : Type where
  key_str : String
  timeout : Option Int

/-- Outcome of one `GenericCache.get` call: the returned value, the backend
store afterwards, the backend operations performed, and how many times the
argumentless fallback `func` was invoked. -/
structure GetResult (α : Type) : Type where
  value : Option α
  store : Store α
  trace : List (BOp α)
  computeCalls : Nat

/-- Embedding of `GenericCache.get` (`cache.py` lines 205–236): unless the
cache is disabled, read the backend at `key.key_str`; on a `None` result
invoke `func` and, unless overwriting is disabled, write the computed value
through with `timeout=key.timeout` before returning it. -/
def GenericCache.get {α : Type} (st : Store α) (now : Int) (key : CacheKeyView)
    (func : Option α) (disable_cache disable_cache_overwrite : Bool) :
    GetResult α :=
  let value : Option α :=
    if disable_cache then none else InMemoryCache.get st now key.key_str
  let trace0 : List (BOp α) :=
    if disable_cache then [] else [.get key.key_str]
  match value with
  | some v => ⟨some v, st, trace0, 0⟩
  | none =>
    if disable_cache_overwrite then ⟨func, st, trace0, 1⟩
    else ⟨func, InMemoryCache.set st now key.key_str func key.timeout,
          trace0 ++ [.set key.key_str func key.timeout], 1⟩

/-- Embedding of `GenericCacheMultiple.get_keys`: yields the base key first,
then every key of the (subclass-supplied) `get_other_keys`. -/
def GenericCacheMultiple.get_keys {α : Type}
    (other_keys : CacheKeyView → α → List CacheKeyView)
    (key : CacheKeyView) (v : α) : List CacheKeyView :=
  key :: other_keys key v

/-- Sequential `flush` loop over a list of keys, deleting each from the
backend and recording the delete operations in order. -/
def flushSeq {α : Type} (st : Store α) : List CacheKeyView → Store α × List (BOp α)
  | [] => (st, [])
  | k :: ks =>
    let r := flushSeq (InMemoryCache.delete st k.key_str) ks
    (r.1, .delete k.key_str :: r.2)

/-- Embedding of `GenericCacheMultiple.flush_keys` (`cache.py` lines
321–334): read the base key from the backend; when a value is present, flush
every key generated by `get_keys` for that value. -/
def GenericCacheMultiple.flush_keys {α : Type}
    (other_keys : CacheKeyView → α → List CacheKeyView)
    (st : Store α) (now : Int) (key : CacheKeyView) : Store α × List (BOp α) :=
  match InMemoryCache.get st now key.key_str with
  | none => (st, [.get key.key_str])
  | some v =>
    let r := flushSeq st (GenericCacheMultiple.get_keys other_keys key v)
    (r.1, BOp.get key.key_str :: r.2)

/-! ## Claims C3 and C10: `GenericCache.get` orchestration -/

/-- C3: with the cache enabled, `GenericCache.get` reads the backend at
`key.key_str`; a present (non-`None`) value is returned with zero compute
invocations and no further backend operation; an absent result — or a
disabled cache — invokes the compute function exactly once and, unless
overwriting is disabled, writes the computed value under `key.key_str` with
timeout `key.timeout` before returning it. -/
theorem c3_get_or_compute {α : Type} (st : Store α) (now : Int)
    (key : CacheKeyView) (func : Option α) (dco : Bool) :
    (∀ v, InMemoryCache.get st now key.key_str = some v →
      GenericCache.get st now key func false dco =
        ⟨some v, st, [.get key.key_str], 0⟩)
    ∧ (InMemoryCache.get st now key.key_str = none →
        GenericCache.get st now key func false false =
          ⟨func, InMemoryCache.set st now key.key_str func key.timeout,
            [.get key.key_str, .set key.key_str func key.timeout], 1⟩
        ∧ GenericCache.get st now key func false true =
            ⟨func, st, [.get key.key_str], 1⟩)
    ∧ (GenericCache.get st now key func true false =
        ⟨func, InMemoryCache.set st now key.key_str func key.timeout,
          [.set key.key_str func key.timeout], 1⟩)
    ∧ GenericCache.get st now key func true true = ⟨func, st, [], 1⟩ := by
  refine ⟨?_, ?_, rfl, rfl⟩
  · intro v hv
    simp [GenericCache.get, hv]
  · intro hv
    constructor <;> simp [GenericCache.get, hv]

/-- Witness for `c3_get_or_compute`: a cache hit returns the stored value
without computing; a miss on the empty store computes and writes through. -/
theorem c3_get_or_compute_witness :
    GenericCache.get [("k", (some 5, none))] 0 ⟨"k", none⟩ (some 7) false false =
      ⟨some 5, [("k", (some 5, none))], [.get "k"], 0⟩
    ∧ GenericCache.get ([] : Store Nat) 0 ⟨"k", none⟩ (some 7) false false =
      ⟨some 7, InMemoryCache.set [] 0 "k" (some 7) none,
        [.get "k", .set "k" (some 7) none], 1⟩ :=
  ⟨(c3_get_or_compute [("k", (some 5, none))] 0 ⟨"k", none⟩ (some 7) false).1 5 rfl,
   ((c3_get_or_compute ([] : Store Nat) 0 ⟨"k", none⟩ (some 7) false).2.1 rfl).1⟩

/-- C10: calling `GenericCache.get` with both `disable_cache=True` and
`disable_cache_overwrite=True` performs no backend operation at all — the
trace is empty and the store unchanged — and returns exactly the result of
invoking the compute function once. -/
theorem c10_disable_both_is_pure_compute {α : Type} (st : Store α) (now : Int)
    (key : CacheKeyView) (func : Option α) :
    GenericCache.get st now key func true true = ⟨func, st, [], 1⟩ := rfl

/-! ## Claim C4: the `None` sentinel is never served as a hit -/

theorem storeLookup_insert_self {α : Type} (st : Store α) (k : String)
    (e : Option α × Option Int) :
    storeLookup (storeInsert st k e) k = some e := by
  unfold storeInsert
  by_cases h : st.any (fun p => p.1 = k) = true
  · rw [if_pos h]
    induction st with
    | nil => simp at h
    | cons p rest ih =>
      simp only [List.map_cons]
      by_cases hp : p.1 = k
      · unfold storeLookup
        rw [if_pos hp]
        simp [hp]
      · unfold storeLookup
        rw [if_neg hp]
        simp only [hp, if_false]
        apply ih
        simp only [List.any_cons, Bool.or_eq_true] at h
        rcases h with h | h
        · exact absurd (by simpa using h) hp
        · exact h
  · rw [if_neg h]
    induction st with
    | nil => simp [storeLookup]
    | cons p rest ih =>
      have hp : ¬ (p.1 = k) := by
        intro hc
        exact h (by simp [List.any_cons, hc])
      have hr : ¬ (rest.any (fun p => p.1 = k) = true) := by
        intro hc
        exact h (by simp [List.any_cons, hc])
      simp only [List.cons_append]
      unfold storeLookup
      rw [if_neg hp]
      exact ih hr

theorem inMemoryGet_of_stored_none {α : Type} (st : Store α) (now : Int)
    (k : String) (e : Option Int) (h : storeLookup st k = some (none, e)) :
    InMemoryCache.get st now k = none := by
  unfold InMemoryCache.get
  rw [h]
  cases e with
  | none => rfl
  | some t =>
    dsimp only
    split <;> rfl

/-- C4: when the compute function returns the absent sentinel `None` on a
miss, `GenericCache.get` returns `None` and writes `None` to the backend
under the key, yet every subsequent `get` for the same key still reads the
backend as absent and invokes its compute function again — the cached
sentinel is indistinguishable from a true miss. -/
theorem c4_none_sentinel_recomputed {α : Type} (st : Store α) (now now2 : Int)
    (key : CacheKeyView) (func2 : Option α)
    (hmiss : InMemoryCache.get st now key.key_str = none) :
    (GenericCache.get st now key (none : Option α) false false).value = none
    ∧ storeLookup (GenericCache.get st now key (none : Option α) false false).store
        key.key_str = some (none, key.timeout.map (fun t => now + t))
    ∧ (GenericCache.get (GenericCache.get st now key (none : Option α) false false).store
        now2 key func2 false false).computeCalls = 1
    ∧ (GenericCache.get (GenericCache.get st now key (none : Option α) false false).store
        now2 key func2 false false).value = func2 := by
  have h1 : GenericCache.get st now key (none : Option α) false false =
      ⟨none, InMemoryCache.set st now key.key_str none key.timeout,
        [.get key.key_str, .set key.key_str none key.timeout], 1⟩ := by
    simp [GenericCache.get, hmiss]
  rw [h1]
  have hlook : storeLookup (InMemoryCache.set st now key.key_str (none : Option α)
      key.timeout) key.key_str = some (none, key.timeout.map (fun t => now + t)) :=
    storeLookup_insert_self st key.key_str _
  have hmiss2 : InMemoryCache.get (InMemoryCache.set st now key.key_str
      (none : Option α) key.timeout) now2 key.key_str = none :=
    inMemoryGet_of_stored_none _ now2 _ _ hlook
  refine ⟨rfl, hlook, ?_, ?_⟩ <;> simp [GenericCache.get, hmiss2]

/-- Witness for `c4_none_sentinel_recomputed`: on the empty store, caching a
computed `None` under `"k"` stores the sentinel, and the next call still
computes again. -/
theorem c4_none_sentinel_recomputed_witness :
    storeLookup (GenericCache.get ([] : Store Nat) 0 ⟨"k", none⟩ none false false).store
      "k" = some (none, none)
    ∧ (GenericCache.get (GenericCache.get ([] : Store Nat) 0 ⟨"k", none⟩ none
        false false).store 1 ⟨"k", none⟩ (some 9) false false).computeCalls = 1 :=
  ⟨(c4_none_sentinel_recomputed ([] : Store Nat) 0 1 ⟨"k", none⟩ (some 9) rfl).2.1,
   (c4_none_sentinel_recomputed ([] : Store Nat) 0 1 ⟨"k", none⟩ (some 9) rfl).2.2.1⟩

/-! ## Claim C6: `GenericCacheMultiple.flush_keys` -/

theorem flushSeq_trace {α : Type} : ∀ (ks : List CacheKeyView) (st : Store α),
    (flushSeq st ks).2 = ks.map (fun k => BOp.delete k.key_str) := by
  intro ks
  induction ks with
  | nil => intro st; rfl
  | cons k ks ih =>
    intro st
    simp [flushSeq, ih]

/-- C6: `flush_keys` first reads the primary key from the backend; when the
value is absent it performs zero delete operations and leaves the store
unchanged; when a value is present it deletes every key in the sequence
produced by `get_keys`, which yields the primary key first and then every
key of `get_other_keys` in order. -/
theorem c6_flush_keys_fanout {α : Type}
    (other_keys : CacheKeyView → α → List CacheKeyView)
    (st : Store α) (now : Int) (key : CacheKeyView) :
    (InMemoryCache.get st now key.key_str = none →
      GenericCacheMultiple.flush_keys other_keys st now key = (st, [.get key.key_str]))
    ∧ (∀ v, InMemoryCache.get st now key.key_str = some v →
      (GenericCacheMultiple.flush_keys other_keys st now key).2 =
        BOp.get key.key_str ::
          (GenericCacheMultiple.get_keys other_keys key v).map
            (fun k => BOp.delete k.key_str)
      ∧ GenericCacheMultiple.get_keys other_keys key v = key :: other_keys key v) := by
  constructor
  · intro h
    simp [GenericCacheMultiple.flush_keys, h]
  · intro v h
    refine ⟨?_, rfl⟩
    simp [GenericCacheMultiple.flush_keys, h, flushSeq_trace]

/-- Witness for `c6_flush_keys_fanout`: an absent primary key is a no-op
with zero deletes; a present one deletes the primary key and the derived
key, in that order. -/
theorem c6_flush_keys_fanout_witness :
    GenericCacheMultiple.flush_keys (fun _ (_ : Nat) => [⟨"other", none⟩])
      ([] : Store Nat) 0 ⟨"k", none⟩ = ([], [.get "k"])
    ∧ (GenericCacheMultiple.flush_keys (fun _ (_ : Nat) => [⟨"other", none⟩])
        [("k", (some 3, none))] 0 ⟨"k", none⟩).2 =
      BOp.get "k" :: (GenericCacheMultiple.get_keys
        (fun _ (_ : Nat) => [⟨"other", none⟩]) ⟨"k", none⟩ 3).map
          (fun k => BOp.delete k.key_str) :=
  ⟨(c6_flush_keys_fanout (fun _ (_ : Nat) => [⟨"other", none⟩])
      ([] : Store Nat) 0 ⟨"k", none⟩).1 rfl,
   ((c6_flush_keys_fanout (fun _ (_ : Nat) => [⟨"other", none⟩])
      [("k", (some 3, none))] 0 ⟨"k", none⟩).2 3 rfl).1⟩

/-! ## Claim C8: `generic_cached_method` (`cache.py` lines 337–411) -/

/-- Conversion of a key's `timeout` attribute (an arbitrary Python value)
to the seconds used by `timedelta` in the backend.  Non-integer timeout
values make Python raise `TypeError` inside `InMemoryCache.set` and are
outside the scope of every claim, which only exercises integer or absent
timeouts. -/
def pyTimeoutSec (t : Option PyVal) : Option Int :=
  t.bind (fun v => match v with | .vint n => some n | _ => none)

/-- Configuration of a `GenericCache` instance as read by `get_key`:
its `default_timeout` and its `key_prefix` string. -/
structure GenericCacheCfg : Type where
  default_timeout : Option PyVal
  key_pref : String

/-- Embedding of `GenericCache.get_key` (`cache.py` lines 247–261): pops a
`timeout` keyword (defaulting to the configured `default_timeout`) and
builds an `ArgsCacheKey` on the decorated key type with that timeout. -/
def GenericCache.get_key (cfg : GenericCacheCfg) (key_type : String)
    (args : List PyVal) (kwargs : List (String × PyVal)) : ArgsCacheKey :=
  let timeout : Option PyVal :=
    match odLookup kwargs "timeout" with
    | some v => some v
    | none => cfg.default_timeout
  let k := ArgsCacheKey.make (cfg.key_pref ++ key_type) args (odRemove kwargs "timeout")
  { k with timeout := timeout }

/-- Outcome of a call through a `generic_cached_method`-decorated method:
the returned value or the raised exception, the backend store afterwards,
the backend operations performed, and the number of invocations of the
wrapped method. -/
structure MethodCallResult (α : Type) : Type where
  result : Except PyError (Option α)
  store : Store α
  trace : List (BOp α)
  methodCalls : Nat

/-- Embedding of the wrapper produced by
`generic_cached_method(key_type, key_timeout, cache_attr, key_version,
class_attr_keys)` applied to one call.  `cache_attr_value` is the result of
`getattr(instance, cache_attr, None)` when that attribute is a
`GenericCache` instance and `none` otherwise (missing attribute or value of
a different type); `className` is `instance.__name__` for classes and
`instance.__class__.__name__` otherwise; `methodResult` is the value the
wrapped method returns when invoked. -/
def generic_cached_method {α : Type} (key_type : String)
    (key_timeout : Option Int) (cache_attr : String) (key_version : PyVal)
    (class_attr_keys : List String) (cache_attr_value : Option GenericCacheCfg)
    (className : String) (spec : FuncSpec) (inst : PyVal)
    (args : List PyVal) (kwargs : List (String × PyVal))
    (methodResult : Option α) (st : Store α) (now : Int) : MethodCallResult α :=
  let disable_cache : Bool :=
    match odLookup kwargs "disable_cache" with
    | some v => pyTruthy v
    | none => false
  let dco : Bool :=
    match odLookup kwargs "disable_cache_overwrite" with
    | some v => pyTruthy v
    | none => false
  let kwargs2 := odRemove (odRemove kwargs "disable_cache") "disable_cache_overwrite"
  match cache_attr_value with
  | none =>
    ⟨.error (.configurationError
      (className ++ "." ++ cache_attr ++ " is not an instance of GenericCache")),
      st, [], 0⟩
  | some gc =>
    let attrsE : Except PyError (List (String × PyVal)) :=
      class_attr_keys.foldlM (fun acc a =>
        match pyGetattr inst a with
        | some v => Except.ok (odInsert acc a v)
        | none => Except.error (.attributeError a)) []
    match attrsE with
    | .error e => ⟨.error e, st, [], 0⟩
    | .ok class_attr_dict =>
      match _get_method_kwargs spec args (odUpdate kwargs2 class_attr_dict) with
      | .error e => ⟨.error e, st, [], 0⟩
      | .ok normalized =>
        let key0 := GenericCache.get_key gc key_type []
          (("key_version", key_version) :: normalized)
        let key1 := match key_timeout with
          | some t => { key0 with timeout := some (.vint t) }
          | none => key0
        let r := GenericCache.get st now ⟨key1.key_str, pyTimeoutSec key1.timeout⟩
          methodResult disable_cache dco
        ⟨.ok r.value, r.store, r.trace, r.computeCalls⟩

/-- C8: when the attribute named by `cache_attr` does not resolve to a valid
`GenericCache` instance, the decorated call fails immediately with the
configuration `ValueError` whose message names the offending class and
attribute, the wrapped method is never invoked, no backend operation is
performed and the store is unchanged. -/
theorem c8_configuration_error {α : Type} (key_type : String)
    (key_timeout : Option Int) (cache_attr : String) (key_version : PyVal)
    (class_attr_keys : List String) (className : String) (spec : FuncSpec)
    (inst : PyVal) (args : List PyVal) (kwargs : List (String × PyVal))
    (methodResult : Option α) (st : Store α) (now : Int) :
    generic_cached_method key_type key_timeout cache_attr key_version
      class_attr_keys none className spec inst args kwargs methodResult st now =
    ⟨.error (.configurationError
      (className ++ "." ++ cache_attr ++ " is not an instance of GenericCache")),
      st, [], 0⟩ := rfl

/-! ## Claim C9: the `CacheDecorator` wrapper (`decorator.py` lines 3–49) -/

/-- Configuration of a `CacheDecorator`: its key string and its
`default_timeout` (a Python value, `none` for `None`). -/
structure CacheDecoratorCfg : Type where
  key_pref : String
  default_timeout : Option PyVal

/-- Embedding of `CacheDecorator.__call__`'s timeout resolution
(`decorator.py` lines 11–14): a per-definition `key_timeout` of `None`
falls back to the decorator's `default_timeout`. -/
def CacheDecorator.resolve_timeout (cfg : CacheDecoratorCfg)
    (key_timeout : Option PyVal) : Option PyVal :=
  match key_timeout with
  | none => cfg.default_timeout
  | some t => some t

/-- What the decorated wrapper delegates to `GenericCache.get`: the built
key (after the wrapper's timeout assignment), the popped flags, and the
positional and keyword arguments the target callable will receive. -/
structure DecoratedCall : Type where
  key : ArgsCacheKey
  disable_cache : Bool
  disable_cache_overwrite : Bool
  target_args : List PyVal
  target_kwargs : List (String × PyVal)

/-- Embedding of the wrapper produced by
`CacheDecorator(...)(key_type, key_timeout, key_version)` applied to one
call (`decorator.py` lines 16–37): pops the reserved `disable_cache` and
`disable_cache_overwrite` keywords, builds the key through the configured
key builder (`norm` is its normalizer) on the decorator's key string
appended with the key type, passing `key_version` as an extra keyword, and
then assigns `key.timeout = key_timeout` unconditionally before delegating. -/
def CacheDecorator.decorated
    (norm : FuncSpec → List PyVal → List (String × PyVal) →
      Except PyError (List (String × PyVal)))
    (cfg : CacheDecoratorCfg) (key_type : String) (key_timeout : Option PyVal)
    (key_version : PyVal) (spec : FuncSpec) (args : List PyVal)
    (kwargs : List (String × PyVal)) : Except PyError DecoratedCall :=
  let kt := CacheDecorator.resolve_timeout cfg key_timeout
  let dc : Bool :=
    match odLookup kwargs "disable_cache" with
    | some v => pyTruthy v
    | none => false
  let dco : Bool :=
    match odLookup kwargs "disable_cache_overwrite" with
    | some v => pyTruthy v
    | none => false
  let kwargs2 := odRemove (odRemove kwargs "disable_cache") "disable_cache_overwrite"
  match buildKeyWith norm (cfg.key_pref ++ key_type) spec args
      (("key_version", key_version) :: kwargs2) with
  | .error e => .error e
  | .ok key0 => .ok ⟨{ key0 with timeout := kt }, dc, dco, args, kwargs2⟩

theorem odLookup_odRemove_self (l : List (String × PyVal)) (k : String) :
    odLookup (odRemove l k) k = none := by
  rw [odLookup_eq_none_iff]
  intro hc
  rcases List.mem_map.mp hc with ⟨p, hp, he⟩
  have hf := List.of_mem_filter hp
  simp only [ne_eq, decide_not, Bool.not_eq_eq_eq_not, Bool.not_true,
    decide_eq_false_iff_not] at hf
  exact hf he

theorem odLookup_odRemove_other (l : List (String × PyVal)) (k m : String)
    (h : odLookup l k = none) : odLookup (odRemove l m) k = none := by
  rw [odLookup_eq_none_iff] at h ⊢
  intro hc
  rcases List.mem_map.mp hc with ⟨p, hp, he⟩
  exact h (he ▸ List.mem_map_of_mem Prod.fst (List.mem_of_mem_filter hp))

/-- C9, counterexample: with no per-definition timeout configured and no
decorator default, a call whose kwargs carry `timeout=5` builds a key whose
construction-time timeout is `5` (the `timeout` kwarg consumed by
`ArgsCacheKey`), but the wrapper's unconditional `key.timeout = key_timeout`
resets it to `None` before delegating — the construction timeout is not
left unchanged as the claim states. -/
theorem c9_counterexample :
    ((CacheDecorator.decorated _get_func_kwargs ⟨"Test.", none⟩ "t" none
        (.vstr "") ⟨["a"], false⟩ [.vint 1] [("timeout", .vint 5)]).map
      (fun d => d.key.timeout) = .ok none)
    ∧ ((FunctionKeyBuilder.build_key "Test.t" ⟨["a"], false⟩ [.vint 1]
        [("key_version", .vstr ""), ("timeout", .vint 5)]).map
      ArgsCacheKey.timeout = .ok (some (.vint 5)))
    ∧ (some (PyVal.vint 5) ≠ (none : Option PyVal)) :=
  ⟨rfl, rfl, fun h => Option.noConfusion h⟩

/-- C9 (amended): every invocation through the `CacheDecorator`-produced
wrapper pops the reserved keywords `disable_cache` and
`disable_cache_overwrite` and does not forward them to the target callable,
and unconditionally overwrites the built key's timeout with the
per-definition timeout — falling back to the decorator's `default_timeout`
when none is configured — discarding any timeout the key acquired at
construction (the correction forced by `c9_counterexample`). -/
theorem c9_decorator_call_amended
    (norm : FuncSpec → List PyVal → List (String × PyVal) →
      Except PyError (List (String × PyVal)))
    (cfg : CacheDecoratorCfg) (key_type : String) (key_timeout : Option PyVal)
    (key_version : PyVal) (spec : FuncSpec) (args : List PyVal)
    (kwargs : List (String × PyVal)) :
    ∀ d, CacheDecorator.decorated norm cfg key_type key_timeout key_version
        spec args kwargs = .ok d →
      d.target_args = args
      ∧ d.target_kwargs =
          odRemove (odRemove kwargs "disable_cache") "disable_cache_overwrite"
      ∧ odLookup d.target_kwargs "disable_cache" = none
      ∧ odLookup d.target_kwargs "disable_cache_overwrite" = none
      ∧ d.key.timeout = CacheDecorator.resolve_timeout cfg key_timeout := by
  intro d hd
  simp only [CacheDecorator.decorated] at hd
  cases hb : buildKeyWith norm (cfg.key_pref ++ key_type) spec args
      (("key_version", key_version) ::
        odRemove (odRemove kwargs "disable_cache") "disable_cache_overwrite") with
  | error e =>
    rw [hb] at hd
    exact Except.noConfusion hd
  | ok key0 =>
    rw [hb] at hd
    have hd2 := Except.ok.inj hd
    rw [← hd2]
    refine ⟨rfl, rfl, ?_, ?_, rfl⟩
    · exact odLookup_odRemove_other _ _ _ (odLookup_odRemove_self kwargs "disable_cache")
    · exact odLookup_odRemove_self _ _

/-- Witness for `c9_decorator_call_amended`: a call with
`disable_cache=True` on a one-parameter function forwards no reserved
keyword to the target and the built key carries the resolved (absent)
timeout. -/
theorem c9_decorator_call_amended_witness :
    ([PyVal.vint 1] : List PyVal) = [PyVal.vint 1]
    ∧ ([] : List (String × PyVal)) =
        odRemove (odRemove [("disable_cache", PyVal.vbool true)] "disable_cache")
          "disable_cache_overwrite"
    ∧ odLookup ([] : List (String × PyVal)) "disable_cache" = none
    ∧ odLookup ([] : List (String × PyVal)) "disable_cache_overwrite" = none
    ∧ (none : Option PyVal) =
        CacheDecorator.resolve_timeout ⟨"Test.", none⟩ none :=
  c9_decorator_call_amended _get_func_kwargs ⟨"Test.", none⟩ "t" none (.vstr "")
    ⟨["a"], false⟩ [.vint 1] [("disable_cache", .vbool true)]
    ⟨⟨"Test.t", .vstr "", none, [], [("a", .vint 1)]⟩, true, false,
      [.vint 1], []⟩ rfl
